import Mathlib

/-!
Verification development for the cutting-plane generation subsystem anchored by
`src/ortools/sat/cuts.cc`.  The translation unit under `src/` contains only its
license header, `#include` lines and an empty `operations_research::sat`
namespace, so the data model and the operations below are modelled from the
specification of the subsystem (spec.md §3–§4.6): exact-integer linear
constraints, a rational relaxation snapshot, a knapsack-cover generator, a
strengthener whose exact-integer re-verification is the soundness boundary, an
overflow guard, and the `run_round` cut manager.
-/

namespace Cuts

/-- Modelled from the spec: a LinearTerm (§3) is a signed integer coefficient
attached to a variable reference (an opaque integer index into the external
bound tracker).  The invariant `coeff ≠ 0` is established by construction
(`construct`), not by the type. -/
structure LinearTerm where
  coeff : Int
  var : Nat
deriving DecidableEq

/-- Modelled from the spec: a LinearConstraint / Cut (§3) is an ordered
collection of LinearTerms plus an optional lower bound and an optional upper
bound (`none` = infinite). -/
structure LinearConstraint where
  terms : List LinearTerm
  lb : Option Int
  ub : Option Int
deriving DecidableEq

/-- An exact (possibly unnormalized) fraction `num / den` with a positive
denominator: the embedding of the floating-point relaxation values and of the
floating-point violation arithmetic of the subsystem.  All operations are plain
integer arithmetic, so every comparison is exactly computable. -/
structure Frac where
  num : Int
  den : Nat
  dpos : 0 < den

/-- The rational number denoted by a `Frac`. -/
def Frac.toRat (a : Frac) : ℚ := (a.num : ℚ) / (a.den : ℚ)

/-- Embed an integer as a fraction. -/
def Frac.ofInt (n : Int) : Frac := ⟨n, 1, Nat.one_pos⟩

/-- Exact addition of fractions (no normalization). -/
def Frac.add (a b : Frac) : Frac :=
  ⟨a.num * (b.den : Int) + b.num * (a.den : Int), a.den * b.den,
    Nat.mul_pos a.dpos b.dpos⟩

/-- Multiply a fraction by an integer. -/
def Frac.scale (k : Int) (a : Frac) : Frac := ⟨k * a.num, a.den, a.dpos⟩

/-- Exact subtraction of fractions. -/
def Frac.sub (a b : Frac) : Frac := a.add (Frac.scale (-1) b)

/-- Exact comparison `a ≤ b` by cross-multiplication (the denominators are
positive). -/
def fracLE (a b : Frac) : Bool := a.num * (b.den : Int) ≤ b.num * (a.den : Int)

/-- Exact comparison `a < b` by cross-multiplication. -/
def fracLT (a b : Frac) : Bool := a.num * (b.den : Int) < b.num * (a.den : Int)

/-- Maximum of two fractions. -/
def fracMax (a b : Frac) : Frac := if fracLE a b then b else a

/-- Divide a fraction by a positive count (used for the inverse-support-size
score component; a zero count is clamped to 1). -/
def Frac.divNat (a : Frac) (n : Nat) : Frac :=
  ⟨a.num, a.den * max n 1, Nat.mul_pos a.dpos (Nat.lt_of_lt_of_le Nat.one_pos (Nat.le_max_right n 1))⟩

/-- Modelled from the spec: the Relaxation Snapshot (§3, §4.2) maps each
variable to its current fractional relaxation value and its integer lower and
upper bounds.  Floating-point relaxation values are embedded as exact
fractions. -/
structure Snapshot where
  value : Nat → Frac
  lb : Nat → Int
  ub : Nat → Int

/-- Modelled from the spec: the error taxonomy (§7) — `MalformedConstraint` is
the only error ever surfaced by a generator invocation. -/
inductive CutError where
  | MalformedConstraint
deriving DecidableEq

/-- Modelled from the spec: a candidate cut (§3) carries the cut inequality, a
provenance tag, and the source constraint it was derived from (the constraint
against which the strengthener re-verifies validity). -/
structure CutCandidate where
  lc : LinearConstraint
  source : LinearConstraint
  provenance : Nat
deriving DecidableEq

/-! ### Construction of linear constraints (spec §4.1) -/

/-- Sum of the coefficients attached to variable `v` in the raw input pairs. -/
def sumCoeff (pairs : List (Int × Nat)) (v : Nat) : Int :=
  ((pairs.filter (fun p => p.2 == v)).map Prod.fst).sum

/-- Modelled from the spec (§4.1): merging duplicate variable references by
summing their coefficients and dropping zero-coefficient terms. -/
def mergedTerms (pairs : List (Int × Nat)) : List LinearTerm :=
  (((pairs.map Prod.snd).dedup).map
      (fun v => LinearTerm.mk (sumCoeff pairs v) v)).filter
    (fun t => t.coeff != 0)

/-- Modelled from the spec (§4.1): construct a LinearConstraint from
(coefficient, variable) pairs plus bounds; fails with `MalformedConstraint`
exactly when the merged term set is empty and both bounds are infinite. -/
def construct (pairs : List (Int × Nat)) (lb ub : Option Int) :
    Except CutError LinearConstraint :=
  if (mergedTerms pairs).isEmpty && lb.isNone && ub.isNone then
    .error .MalformedConstraint
  else .ok (LinearConstraint.mk (mergedTerms pairs) lb ub)

/-- Total coefficient of variable `v` in a constructed constraint (0 when the
variable does not occur). -/
def lookupCoeff (c : LinearConstraint) (v : Nat) : Int :=
  ((c.terms.filter (fun t => t.var == v)).map LinearTerm.coeff).sum

/-! ### Canonicalization (spec §4.1) -/

/-- Ordering of terms by ascending variable index. -/
def termLE (a b : LinearTerm) : Prop := a.var ≤ b.var

instance : DecidableRel termLE := fun a b => Nat.decLe a.var b.var

instance : IsTotal LinearTerm termLE := ⟨fun a b => Nat.le_total a.var b.var⟩

instance : IsTrans LinearTerm termLE := ⟨fun _ _ _ hab hbc => Nat.le_trans hab hbc⟩

/-- Coefficient of the leading term (1 for an empty term list, so that the
empty constraint never triggers a sign flip). -/
def leadCoeff (ts : List LinearTerm) : Int :=
  match ts with
  | [] => 1
  | t :: _ => t.coeff

/-- Negate one term (used when the whole constraint is sign-flipped). -/
def negateTerm (t : LinearTerm) : LinearTerm := LinearTerm.mk (-t.coeff) t.var

/-- Modelled from the spec (§4.1): canonicalization reorders terms by ascending
variable index and flips the sign of the whole constraint (negating every
coefficient and swapping/negating the bounds) when the leading coefficient is
negative, so that the leading nonzero coefficient is positive. -/
def canonicalize (c : LinearConstraint) : LinearConstraint :=
  if leadCoeff (List.insertionSort termLE c.terms) < 0 then
    LinearConstraint.mk ((List.insertionSort termLE c.terms).map negateTerm)
      (c.ub.map (fun u => -u)) (c.lb.map (fun l => -l))
  else LinearConstraint.mk (List.insertionSort termLE c.terms) c.lb c.ub

/-- Modelled from the spec (§3, §4.1): the normalized signature used for
deduplication is the canonical form of the constraint. -/
def signature (c : LinearConstraint) : LinearConstraint := canonicalize c

/-! ### Activity evaluation (spec §3, §4.1) -/

/-- Exact integer activity of a constraint at an integer point. -/
def activityInt (c : LinearConstraint) (x : Nat → Int) : Int :=
  (c.terms.map (fun t => t.coeff * x t.var)).sum

/-- Whether an integer point satisfies the constraint (both bounds). -/
def satisfiesB (c : LinearConstraint) (x : Nat → Int) : Bool :=
  (match c.lb with | none => true | some l => decide (l ≤ activityInt c x)) &&
  (match c.ub with | none => true | some u => decide (activityInt c x ≤ u))

/-- Exact fractional activity of a constraint at the relaxation
point. -/
def activityQ (s : Snapshot) (c : LinearConstraint) : Frac :=
  c.terms.foldr (fun t acc => Frac.add (Frac.scale t.coeff (s.value t.var)) acc)
    (Frac.ofInt 0)

/-- Modelled from the spec (§3): the violation of a constraint at the
relaxation point — activity minus upper bound / lower bound minus activity,
whichever is worse; an infinite bound contributes the non-violated value −1. -/
def violationOf (s : Snapshot) (c : LinearConstraint) : Frac :=
  fracMax
    (match c.ub with
     | some u => Frac.sub (activityQ s c) (Frac.ofInt u)
     | none => Frac.ofInt (-1))
    (match c.lb with
     | some l => Frac.sub (Frac.ofInt l) (activityQ s c)
     | none => Frac.ofInt (-1))

/-- Modelled from the spec (§4.5): the fixed absolute violation tolerance. -/
def tolerance : Frac := ⟨1, 1000000, by norm_num⟩

/-! ### Overflow & Numerical Guard (spec §4.5) -/

/-- Modelled from the spec (§4.5, §9): the conservative safe integer range,
resolved once from the 64-bit target integer width minus headroom for activity
evaluation. -/
def kSafeRange : Int := 2 ^ 60

/-- Modelled from the spec (§4.5): `check(value, magnitude_bound)` — whether a
magnitude of a value stays within a magnitude bound. -/
def check (value bound : Int) : Bool := value.natAbs ≤ bound.natAbs

/-- A whole cut passes the overflow guard when every coefficient and every
finite bound is within the safe range. -/
def guardOkCut (c : LinearConstraint) : Bool :=
  c.terms.all (fun t => check t.coeff kSafeRange) &&
  (match c.lb with | none => true | some l => check l kSafeRange) &&
  (match c.ub with | none => true | some u => check u kSafeRange)

/-! ### Exact re-verification (spec §4.4): enumerate all integer points of the
bound box over the support variables and check the implication
"source constraint satisfied → cut satisfied". -/

/-- The variables occurring in a constraint. -/
def supportVars (c : LinearConstraint) : List Nat := c.terms.map LinearTerm.var

/-- The `n` consecutive integers starting at `lo`. -/
def intRangeGo (lo : Int) : Nat → List Int
  | 0 => []
  | n + 1 => lo :: intRangeGo (lo + 1) n

/-- The integers from `lo` to `hi` inclusive. -/
def intRange (lo hi : Int) : List Int := intRangeGo lo (hi + 1 - lo).toNat

/-- All assignments of the listed variables to values inside their Snapshot
bounds (other variables are pinned to 0, which is irrelevant for constraints
supported on the listed variables). -/
def assignments (s : Snapshot) : List Nat → List (Nat → Int)
  | [] => [fun _ => 0]
  | v :: vs =>
      (intRange (s.lb v) (s.ub v)).flatMap
        (fun val => (assignments s vs).map (fun f => Function.update f v val))

/-- Modelled from the spec (§4.4): the exact-integer validity check of the
Strengthener — the cut must hold at every integer point of the variable-bound
box that satisfies the source constraint.  This is the primary correctness
boundary: it uses only exact integer arithmetic. -/
def verifyCut (s : Snapshot) (src cut : LinearConstraint) : Bool :=
  (assignments s ((supportVars src ++ supportVars cut).dedup)).all
    (fun f => !satisfiesB src f || satisfiesB cut f)

/-- Modelled from the spec (§4.4): `strengthen(raw Cut, snapshot) -> Cut or
None`.  The soundness-critical step — symbolic exact-integer re-verification of
the cut against the constraint it was derived from, dropping the cut whenever
validity cannot be established — is modelled exactly; the validity-preserving
heuristic refinements of §4.4 (complementation, coefficient tightening) do not
affect any specified observable property and are modelled as the identity. -/
def strengthen (s : Snapshot) (r : CutCandidate) : Option CutCandidate :=
  if verifyCut s r.source r.lc then some r else none

/-! ### Knapsack-cover generator (spec §4.3) -/

/-- A generator consumes the Snapshot and a constraint subset and produces raw
cut candidates, or fails with `MalformedConstraint` (spec §4.3). -/
def Generator : Type := Snapshot → List LinearConstraint → Except CutError (List CutCandidate)

/-- Whether the relaxation point is integral on the support of the constraint. -/
def isIntegralOn (s : Snapshot) (c : LinearConstraint) : Bool :=
  c.terms.all (fun t => (s.value t.var).den ∣ (s.value t.var).num.natAbs)

/-- Whether the constraint is 0/1-knapsack-structured: positive weights over
0/1-bounded variables, finite upper bound (the capacity), no lower bound. -/
def knapsackShape (s : Snapshot) (c : LinearConstraint) : Bool :=
  c.lb.isNone && c.ub.isSome && !c.terms.isEmpty &&
  c.terms.all (fun t =>
    decide (0 < t.coeff) && s.lb t.var == 0 && s.ub t.var == 1)

/-- Ordering of knapsack items by decreasing weight, ties broken by ascending
variable index (a deterministic rule, as §9 requires). -/
def weightGT (a b : LinearTerm) : Prop :=
  b.coeff < a.coeff ∨ (a.coeff = b.coeff ∧ a.var ≤ b.var)

instance : DecidableRel weightGT := fun a b => by
  unfold weightGT; infer_instance

instance : IsTotal LinearTerm weightGT :=
  ⟨fun a b => by
    unfold weightGT
    rcases lt_trichotomy a.coeff b.coeff with h | h | h
    · exact Or.inr (Or.inl h)
    · rcases Nat.le_total a.var b.var with hv | hv
      · exact Or.inl (Or.inr ⟨h, hv⟩)
      · exact Or.inr (Or.inr ⟨h.symm, hv⟩)
    · exact Or.inl (Or.inl h)⟩

instance : IsTrans LinearTerm weightGT :=
  ⟨fun a b c hab hbc => by
    unfold weightGT at hab hbc ⊢
    rcases hab with h1 | ⟨h1, h1v⟩ <;> rcases hbc with h2 | ⟨h2, h2v⟩
    · exact Or.inl (h2.trans h1)
    · exact Or.inl (h2 ▸ h1)
    · exact Or.inl (h1 ▸ h2)
    · exact Or.inr ⟨h1.trans h2, h1v.trans h2v⟩⟩

/-- Total weight of a set of items. -/
def coverWeight (items : List LinearTerm) : Int := (items.map LinearTerm.coeff).sum

/-- Shortest prefix of the item list whose accumulated weight exceeds the
capacity (`acc` is the weight already accumulated), if any. -/
def greedyCover (items : List LinearTerm) (acc cap : Int) : Option (List LinearTerm) :=
  match items with
  | [] => none
  | t :: ts =>
      if cap < acc + t.coeff then some [t]
      else (greedyCover ts (acc + t.coeff) cap).map (fun c => t :: c)

/-- Drop every item whose removal keeps the remaining weight above the
capacity, so the returned cover is minimal. -/
def minimalizeCover (cover kept : List LinearTerm) (cap : Int) : List LinearTerm :=
  match cover with
  | [] => []
  | t :: rest =>
      if cap < coverWeight (kept ++ rest) then minimalizeCover rest kept cap
      else t :: minimalizeCover rest (kept ++ [t]) cap

/-- Modelled from the spec (§4.3): find a minimal cover — sort items by
decreasing weight (ascending index on ties), greedily accumulate until the
capacity is exceeded, then minimalize. -/
def findMinimalCover (items : List LinearTerm) (cap : Int) : Option (List LinearTerm) :=
  (greedyCover (List.insertionSort weightGT items) 0 cap).map
    (fun c => minimalizeCover c [] cap)

/-- Provenance tag of the knapsack-cover generator. -/
def knapsackProvenance : Nat := 0

/-- Modelled from the spec (§4.3): the knapsack-cover generator on one
constraint — skip non-knapsack constraints, raise `MalformedConstraint` on a
claimed knapsack with negative capacity, treat an integral relaxation point as
a no-op, otherwise emit the cover inequality (sum of cover variables ≤
|cover| − 1) of a minimal cover. -/
def knapsackOnConstraint (s : Snapshot) (c : LinearConstraint) :
    Except CutError (List CutCandidate) :=
  if knapsackShape s c then
    match c.ub with
    | some cap =>
        if cap < 0 then .error .MalformedConstraint
        else if isIntegralOn s c then .ok []
        else
          match findMinimalCover c.terms cap with
          | some cover =>
              .ok [⟨LinearConstraint.mk (cover.map (fun t => LinearTerm.mk 1 t.var))
                      none (some ((cover.length : Int) - 1)), c, knapsackProvenance⟩]
          | none => .ok []
    | none => .ok []
  else .ok []

/-- The knapsack-cover generator over its constraint subset; the first
malformed constraint aborts this generator invocation (spec §7). -/
def knapsackGenList (s : Snapshot) (cs : List LinearConstraint) :
    Except CutError (List CutCandidate) :=
  match cs with
  | [] => .ok []
  | c :: rest =>
      match knapsackOnConstraint s c, knapsackGenList s rest with
      | .error e, _ => .error e
      | .ok _, .error e => .error e
      | .ok l1, .ok l2 => .ok (l1 ++ l2)

/-- The knapsack-cover generator as a `Generator`. -/
def knapsackCoverGenerator : Generator := knapsackGenList

/-- Modelled from the spec (§4.6, §9): the fixed, registered generator priority
list.  Only the knapsack-cover family is instantiated here; every Cut Manager
theorem below quantifies over an arbitrary generator list, so it covers the
remaining families as well. -/
def defaultGenerators : List Generator := [knapsackCoverGenerator]

/-! ### Cut Manager (spec §4.6) -/

/-- One generator invocation followed by the shared pipeline: strengthening
with exact re-verification, the overflow guard, and the fixed-tolerance
violation test.  A `MalformedConstraint` failure is fatal only to this
generator invocation and contributes no cuts. -/
def processGen (s : Snapshot) (cs : List LinearConstraint) (g : Generator) :
    List CutCandidate :=
  (match g s cs with
   | .ok raw => raw.filterMap (strengthen s)
   | .error _ => []).filter
    (fun c => guardOkCut c.lc && fracLT tolerance (violationOf s c.lc))

/-- Modelled from the spec (§4.6): invoke the generators in priority order,
checking the external time limit after each generator completes (each
invocation consumes one unit of budget); when the limit is exceeded, return
what has been collected so far. -/
def runGens (s : Snapshot) (cs : List LinearConstraint) :
    List Generator → Nat → List CutCandidate
  | [], _ => []
  | g :: _, 0 => processGen s cs g
  | g :: gs, limit + 1 => processGen s cs g ++ runGens s cs gs limit

/-- Insert a cut into the deduplicated pool: on a canonical-signature
collision keep the higher-violation instance (spec §4.6). -/
def insertDedup (s : Snapshot) (acc : List CutCandidate) (c : CutCandidate) :
    List CutCandidate :=
  if acc.any (fun d => decide (signature d.lc = signature c.lc)) then
    acc.map (fun d =>
      if decide (signature d.lc = signature c.lc) &&
          fracLT (violationOf s d.lc) (violationOf s c.lc) then c else d)
  else acc ++ [c]

/-- Deduplicate by canonical signature, keeping the higher-violation instance
on collision. -/
def dedupBySignature (s : Snapshot) (l : List CutCandidate) : List CutCandidate :=
  l.foldl (insertDedup s) []

/-- Modelled from the spec (§4.6): the composite score — violation magnitude
divided by support size (sparser, more-violated cuts ranked higher). -/
def scoreOf (s : Snapshot) (c : CutCandidate) : Frac :=
  (violationOf s c.lc).divNat c.lc.terms.length

/-- Ranking of cuts by decreasing score. -/
def cutRank (s : Snapshot) (a b : CutCandidate) : Prop :=
  fracLE (scoreOf s b) (scoreOf s a) = true

instance (s : Snapshot) : DecidableRel (cutRank s) := fun a b => by
  unfold cutRank; infer_instance

/-- Modelled from the spec (§4.6): the bounded count of cuts returned per
round. -/
def kMaxCutsPerRound : Nat := 20

/-- Modelled from the spec (§4.6): `run_round(snapshot, constraints,
time_limit)` — invoke the generators in fixed priority order under the time
budget, deduplicate by canonical signature, sort by decreasing composite
score, and truncate to the bounded count. -/
def runRound (gens : List Generator) (s : Snapshot) (cs : List LinearConstraint)
    (limit : Nat) : List CutCandidate :=
  (List.insertionSort (cutRank s) (dedupBySignature s (runGens s cs gens limit))).take
    kMaxCutsPerRound

/-! ### Concrete instances (the worked example of spec §8 and small probes) -/

/-- The relaxation snapshot of the spec §8 example scenario:
`x1 = 1, x2 = 0.8, x3 = 1, x4 = 0.5`, all variables 0/1-bounded. -/
def exampleSnapshot : Snapshot where
  value := fun v =>
    if v = 1 then ⟨1, 1, Nat.one_pos⟩
    else if v = 2 then ⟨4, 5, by norm_num⟩
    else if v = 3 then ⟨1, 1, Nat.one_pos⟩
    else if v = 4 then ⟨1, 2, by norm_num⟩
    else ⟨0, 1, Nat.one_pos⟩
  lb := fun _ => 0
  ub := fun _ => 1

/-- The 0/1 knapsack constraint `3 x1 + 5 x2 + 4 x3 + 6 x4 ≤ 10` of spec §8. -/
def exampleKnapsack : LinearConstraint :=
  LinearConstraint.mk [⟨3, 1⟩, ⟨5, 2⟩, ⟨4, 3⟩, ⟨6, 4⟩] none (some 10)

/-- The cover cut `x4 + x2 ≤ 1` derived from the minimal cover `{x2, x4}` of
the example knapsack (terms listed in the order the generator produces). -/
def exampleCoverCandidate : CutCandidate :=
  CutCandidate.mk (LinearConstraint.mk [⟨1, 4⟩, ⟨1, 2⟩] none (some 1))
    exampleKnapsack knapsackProvenance

/-- The integer point `x1 = 1, x3 = 1, x2 = x4 = 0` (feasible for the example
knapsack). -/
def examplePoint : Nat → Int := fun v => if v = 1 then 1 else if v = 3 then 1 else 0

/-- A snapshot whose relaxation values are all integral. -/
def integralSnapshot : Snapshot where
  value := fun _ => ⟨1, 1, Nat.one_pos⟩
  lb := fun _ => 0
  ub := fun _ => 1

/-- A claimed knapsack constraint with a negative capacity: `2 x1 ≤ −3`
(structurally malformed input, spec §4.3). -/
def badCapConstraint : LinearConstraint :=
  LinearConstraint.mk [⟨2, 1⟩] none (some (-3))

/-- A generator whose only candidate has a coefficient far beyond the safe
range (a probe for the overflow guard). -/
def overflowGen : Generator := fun _ _ =>
  .ok [CutCandidate.mk (LinearConstraint.mk [⟨2 ^ 61, 7⟩] none (some 0))
        (LinearConstraint.mk [⟨2 ^ 61, 7⟩] none (some 0)) 5]

/-- A small constraint with unsorted terms and a negative leading coefficient
after sorting would not arise here; used to probe canonicalization. -/
def canonProbe : LinearConstraint :=
  LinearConstraint.mk [⟨-2, 5⟩, ⟨3, 1⟩] (some 0) (some 4)

/-! ### The translation unit itself -/

/-- Shallow embedding of the visible source file `src/ortools/sat/cuts.cc`:
the list of symbols declared inside its namespace `operations_research::sat`.
The namespace body (lines 24–26 of the file) is empty, so the list is empty. -/
def cutsCcSatNamespaceDecls : List String := []

/-- The declarations of an empty module, for the observational-equivalence
comparison stated by the refinement claim. -/
def emptyModuleDecls : List String := []

/-! ## Theorems -/

/-! ### The exact fraction comparisons agree with the rational order -/

theorem fracLE_iff_toRat (a b : Frac) : fracLE a b = true ↔ a.toRat ≤ b.toRat := by
  have ha : (0 : ℚ) < (a.den : ℚ) := by exact_mod_cast a.dpos
  have hb : (0 : ℚ) < (b.den : ℚ) := by exact_mod_cast b.dpos
  rw [Frac.toRat, Frac.toRat, div_le_div_iff₀ ha hb, fracLE, decide_eq_true_eq]
  constructor
  · intro h; exact_mod_cast h
  · intro h; exact_mod_cast h

theorem fracLT_iff_toRat (a b : Frac) : fracLT a b = true ↔ a.toRat < b.toRat := by
  have ha : (0 : ℚ) < (a.den : ℚ) := by exact_mod_cast a.dpos
  have hb : (0 : ℚ) < (b.den : ℚ) := by exact_mod_cast b.dpos
  rw [Frac.toRat, Frac.toRat, div_lt_div_iff₀ ha hb, fracLT, decide_eq_true_eq]
  constructor
  · intro h; exact_mod_cast h
  · intro h; exact_mod_cast h

/-! ### Soundness of the exact re-verification (spec §4.4) -/

theorem mem_intRangeGo {v : Int} : ∀ (n : Nat) (lo : Int),
    lo ≤ v → v < lo + (n : Int) → v ∈ intRangeGo lo n
  | 0, lo, h1, h2 => by omega
  | n + 1, lo, h1, h2 => by
      unfold intRangeGo
      by_cases hv : v = lo
      · exact hv ▸ List.mem_cons_self lo (intRangeGo (lo + 1) n)
      · exact List.mem_cons_of_mem lo
          (mem_intRangeGo n (lo + 1) (by omega) (by omega))

theorem mem_intRange {lo hi v : Int} (h1 : lo ≤ v) (h2 : v ≤ hi) :
    v ∈ intRange lo hi :=
  mem_intRangeGo (hi + 1 - lo).toNat lo h1 (by omega)

theorem assignments_complete (s : Snapshot) (vs : List Nat) (x : Nat → Int)
    (hb : ∀ v ∈ vs, s.lb v ≤ x v ∧ x v ≤ s.ub v) :
    ∃ f ∈ assignments s vs, ∀ v ∈ vs, f v = x v := by
  induction vs with
  | nil => exact ⟨fun _ => 0, by simp [assignments], by simp⟩
  | cons v vs ih =>
      obtain ⟨f, hf, hfx⟩ := ih (fun w hw => hb w (List.mem_cons_of_mem v hw))
      refine ⟨Function.update f v (x v), ?_, ?_⟩
      · unfold assignments
        refine List.mem_flatMap.mpr ⟨x v, ?_, List.mem_map.mpr ⟨f, hf, rfl⟩⟩
        exact mem_intRange (hb v (List.mem_cons_self v vs)).1
          (hb v (List.mem_cons_self v vs)).2
      · intro w hw
        rcases List.mem_cons.mp hw with hw | hw
        · subst hw; simp
        · by_cases hvw : w = v
          · subst hvw; simp
          · rw [Function.update_noteq hvw]
            exact hfx w hw

theorem activityInt_congr {c : LinearConstraint} {f x : Nat → Int}
    (h : ∀ v ∈ supportVars c, f v = x v) : activityInt c f = activityInt c x := by
  unfold activityInt
  congr 1
  refine List.map_congr_left ?_
  intro t ht
  rw [h t.var (List.mem_map.mpr ⟨t, ht, rfl⟩)]

theorem satisfiesB_congr {c : LinearConstraint} {f x : Nat → Int}
    (h : ∀ v ∈ supportVars c, f v = x v) : satisfiesB c f = satisfiesB c x := by
  unfold satisfiesB
  rw [activityInt_congr h]

theorem verifyCut_sound {s : Snapshot} {src cut : LinearConstraint}
    (hv : verifyCut s src cut = true) (x : Nat → Int)
    (hb : ∀ v, s.lb v ≤ x v ∧ x v ≤ s.ub v)
    (hs : satisfiesB src x = true) : satisfiesB cut x = true := by
  obtain ⟨f, hf, hfx⟩ :=
    assignments_complete s ((supportVars src ++ supportVars cut).dedup) x
      (fun v _ => hb v)
  have hall := List.all_eq_true.mp hv f hf
  have h1 : satisfiesB src f = satisfiesB src x :=
    satisfiesB_congr (fun v hv2 =>
      hfx v (List.mem_dedup.mpr (List.mem_append.mpr (Or.inl hv2))))
  have h2 : satisfiesB cut f = satisfiesB cut x :=
    satisfiesB_congr (fun v hv2 =>
      hfx v (List.mem_dedup.mpr (List.mem_append.mpr (Or.inr hv2))))
  rw [h1, hs] at hall
  rw [← h2]
  simpa using hall

/-! ### Membership in the pipeline output implies the pipeline checks passed -/

theorem strengthen_eq_some {s : Snapshot} {r c : CutCandidate}
    (h : strengthen s r = some c) :
    c = r ∧ verifyCut s c.source c.lc = true := by
  unfold strengthen at h
  by_cases hv : verifyCut s r.source r.lc = true
  · rw [if_pos hv] at h
    cases h
    exact ⟨rfl, hv⟩
  · rw [if_neg hv] at h
    cases h

theorem mem_processGen {s : Snapshot} {cs : List LinearConstraint}
    {g : Generator} {c : CutCandidate} (h : c ∈ processGen s cs g) :
    verifyCut s c.source c.lc = true ∧ guardOkCut c.lc = true ∧
      fracLT tolerance (violationOf s c.lc) = true := by
  unfold processGen at h
  obtain ⟨hmem, hcond⟩ := List.mem_filter.mp h
  have hgv : guardOkCut c.lc = true ∧ fracLT tolerance (violationOf s c.lc) = true := by
    simpa [Bool.and_eq_true] using hcond
  refine ⟨?_, hgv.1, hgv.2⟩
  cases hg : g s cs with
  | ok raw =>
      rw [hg] at hmem
      obtain ⟨r, _, hr⟩ := List.mem_filterMap.mp hmem
      exact (strengthen_eq_some hr).2
  | error e =>
      rw [hg] at hmem
      simp at hmem

theorem mem_runGens {s : Snapshot} {cs : List LinearConstraint}
    {c : CutCandidate} : ∀ (gens : List Generator) (limit : Nat),
    c ∈ runGens s cs gens limit →
    verifyCut s c.source c.lc = true ∧ guardOkCut c.lc = true ∧
      fracLT tolerance (violationOf s c.lc) = true
  | [], limit, h => by simp [runGens] at h
  | g :: gs, 0, h => mem_processGen h
  | g :: gs, limit + 1, h => by
      rcases List.mem_append.mp h with h2 | h2
      · exact mem_processGen h2
      · exact mem_runGens gs limit h2

theorem mem_insertDedup {s : Snapshot} {acc : List CutCandidate}
    {c d : CutCandidate} (h : d ∈ insertDedup s acc c) : d ∈ acc ∨ d = c := by
  unfold insertDedup at h
  split at h
  · obtain ⟨e, he, hd⟩ := List.mem_map.mp h
    split at hd
    · exact Or.inr hd.symm
    · exact Or.inl (hd ▸ he)
  · rcases List.mem_append.mp h with h2 | h2
    · exact Or.inl h2
    · exact Or.inr (List.mem_singleton.mp h2)

theorem mem_foldl_insertDedup {s : Snapshot} {d : CutCandidate} :
    ∀ (l acc : List CutCandidate),
    d ∈ List.foldl (insertDedup s) acc l → d ∈ acc ∨ d ∈ l
  | [], acc, h => Or.inl h
  | c :: l, acc, h => by
      rcases mem_foldl_insertDedup l (insertDedup s acc c) h with h2 | h2
      · rcases mem_insertDedup h2 with h3 | h3
        · exact Or.inl h3
        · exact Or.inr (h3 ▸ List.mem_cons_self c l)
      · exact Or.inr (List.mem_cons_of_mem c h2)

theorem mem_runRound {gens : List Generator} {s : Snapshot}
    {cs : List LinearConstraint} {limit : Nat} {c : CutCandidate}
    (h : c ∈ runRound gens s cs limit) : c ∈ runGens s cs gens limit := by
  unfold runRound at h
  have h1 := List.take_subset kMaxCutsPerRound _ h
  have h2 := (List.perm_insertionSort (cutRank s) _).subset h1
  unfold dedupBySignature at h2
  rcases mem_foldl_insertDedup _ [] h2 with h3 | h3
  · simp at h3
  · exact h3

/-! ### Time-limit behaviour (spec §4.6) -/

theorem runGens_take (s : Snapshot) (cs : List LinearConstraint) :
    ∀ (gens : List Generator) (limit : Nat),
    runGens s cs gens limit = runGens s cs (gens.take (limit + 1)) limit
  | [], limit => by simp [List.take_nil]
  | g :: gs, 0 => by simp [runGens]
  | g :: gs, limit + 1 => by
      show processGen s cs g ++ runGens s cs gs limit =
        runGens s cs (g :: gs.take (limit + 1)) (limit + 1)
      rw [runGens_take s cs gs limit]
      rfl

/-! ### The erroneous or fully-overflowing generator contributes nothing -/

theorem processGen_of_error {s : Snapshot} {cs : List LinearConstraint}
    {g : Generator} {e : CutError} (hg : g s cs = .error e) :
    processGen s cs g = [] := by
  unfold processGen
  rw [hg]
  rfl

theorem processGen_of_guard_fail {s : Snapshot} {cs : List LinearConstraint}
    {g : Generator} {raw : List CutCandidate} (hg : g s cs = .ok raw)
    (hall : ∀ r ∈ raw, guardOkCut r.lc = false) :
    processGen s cs g = [] := by
  unfold processGen
  rw [hg]
  rw [List.filter_eq_nil_iff]
  intro c hc
  obtain ⟨r, hr, hsr⟩ := List.mem_filterMap.mp hc
  obtain ⟨rfl, -⟩ := strengthen_eq_some hsr
  simp [hall c hr]

/-! ### Canonicalization lemmas (spec §4.1) -/

theorem canonicalize_sorted (c : LinearConstraint) :
    List.Sorted termLE (canonicalize c).terms := by
  unfold canonicalize
  split
  · refine List.Pairwise.map negateTerm ?_ (List.sorted_insertionSort termLE c.terms)
    intro a b hab
    exact hab
  · exact List.sorted_insertionSort termLE c.terms

theorem canonicalize_leadCoeff_pos {c : LinearConstraint}
    (hnz : ∀ t ∈ c.terms, t.coeff ≠ 0) :
    0 < leadCoeff (canonicalize c).terms := by
  have hnz2 : ∀ t ∈ List.insertionSort termLE c.terms, t.coeff ≠ 0 := fun t ht =>
    hnz t ((List.perm_insertionSort termLE c.terms).subset ht)
  unfold canonicalize
  cases hsort : List.insertionSort termLE c.terms with
  | nil => simp [leadCoeff]
  | cons t ts =>
      have hne := hnz2 t (hsort ▸ List.mem_cons_self t ts)
      by_cases h : leadCoeff (t :: ts) < 0
      · rw [if_pos h]
        show 0 < leadCoeff (List.map negateTerm (t :: ts))
        rw [List.map_cons]
        simp only [leadCoeff, negateTerm] at h ⊢
        omega
      · rw [if_neg h]
        show 0 < leadCoeff (t :: ts)
        simp only [leadCoeff] at h ⊢
        omega

theorem canonicalize_vars_perm (c : LinearConstraint) :
    List.Perm ((canonicalize c).terms.map LinearTerm.var)
      (c.terms.map LinearTerm.var) := by
  unfold canonicalize
  split
  · show List.Perm (((List.insertionSort termLE c.terms).map negateTerm).map LinearTerm.var) _
    rw [List.map_map]
    exact (List.perm_insertionSort termLE c.terms).map LinearTerm.var
  · exact (List.perm_insertionSort termLE c.terms).map LinearTerm.var

/-! ### Construction lemmas (spec §4.1) -/

theorem mergedTerms_pairwise_ne (pairs : List (Int × Nat)) :
    (mergedTerms pairs).Pairwise (fun a b => a.var ≠ b.var) := by
  unfold mergedTerms
  apply List.Pairwise.filter
  exact List.Pairwise.map _ (fun a b hab => hab) (List.nodup_dedup _)

theorem mem_mergedTerms_iff (pairs : List (Int × Nat)) (t : LinearTerm) :
    t ∈ mergedTerms pairs ↔
      t.coeff = sumCoeff pairs t.var ∧ t.coeff ≠ 0 ∧
        t.var ∈ pairs.map Prod.snd := by
  unfold mergedTerms
  rw [List.mem_filter]
  constructor
  · rintro ⟨hm, hc⟩
    obtain ⟨w, hw, rfl⟩ := List.mem_map.mp hm
    exact ⟨rfl, by simpa [bne_iff_ne] using hc, List.mem_dedup.mp hw⟩
  · rintro ⟨hc, hnz, hv⟩
    refine ⟨List.mem_map.mpr ⟨t.var, List.mem_dedup.mpr hv, ?_⟩, by simpa [bne_iff_ne] using hnz⟩
    cases t with
    | mk tc tv => simp only at hc; rw [hc]

theorem construct_ok {pairs : List (Int × Nat)} {lb ub : Option Int}
    {c : LinearConstraint} (h : construct pairs lb ub = .ok c) :
    c = LinearConstraint.mk (mergedTerms pairs) lb ub := by
  unfold construct at h
  split at h
  · cases h
  · cases h; rfl

theorem construct_error_iff (pairs : List (Int × Nat)) (lb ub : Option Int) :
    construct pairs lb ub = .error .MalformedConstraint ↔
      mergedTerms pairs = [] ∧ lb = none ∧ ub = none := by
  unfold construct
  split
  case isTrue h =>
    simp only [true_iff]
    have h2 : (mergedTerms pairs).isEmpty = true ∧ lb.isNone = true ∧ ub.isNone = true := by
      simpa [Bool.and_eq_true, and_assoc] using h
    exact ⟨List.isEmpty_iff.mp h2.1, Option.isNone_iff_eq_none.mp h2.2.1,
      Option.isNone_iff_eq_none.mp h2.2.2⟩
  case isFalse h =>
    constructor
    · intro hcontra; cases hcontra
    · rintro ⟨h1, h2, h3⟩
      exact absurd (by simp [h1, h2, h3]) h

/-! ### Knapsack-cover generator lemmas (spec §4.3, §7) -/

theorem knapsackOnConstraint_error {s : Snapshot} {c : LinearConstraint}
    {e : CutError} (h : knapsackOnConstraint s c = .error e) :
    e = .MalformedConstraint ∧ knapsackShape s c = true ∧
      ∃ cap, c.ub = some cap ∧ cap < 0 := by
  unfold knapsackOnConstraint at h
  split at h
  case isTrue hshape =>
    cases hub : c.ub with
    | none => rw [hub] at h; cases h
    | some cap =>
        rw [hub] at h
        dsimp only at h
        by_cases hcap : cap < 0
        · rw [if_pos hcap] at h
          cases h
          exact ⟨rfl, hshape, cap, rfl, hcap⟩
        · rw [if_neg hcap] at h
          by_cases hint : isIntegralOn s c = true
          · rw [if_pos hint] at h; cases h
          · rw [if_neg hint] at h
            cases hfc : findMinimalCover c.terms cap with
            | some cover => rw [hfc] at h; cases h
            | none => rw [hfc] at h; cases h
  case isFalse hshape => cases h

theorem knapsackOnConstraint_integral {s : Snapshot} {c : LinearConstraint}
    (hint : isIntegralOn s c = true)
    (hcap : ∀ cap, c.ub = some cap → 0 ≤ cap) :
    knapsackOnConstraint s c = .ok [] := by
  unfold knapsackOnConstraint
  by_cases hshape : knapsackShape s c = true
  · rw [if_pos hshape]
    cases hub : c.ub with
    | none => rfl
    | some cap =>
        dsimp only
        rw [if_neg (by have := hcap cap hub; omega), if_pos hint]
  · rw [if_neg hshape]

theorem knapsackGenList_error {s : Snapshot} :
    ∀ {cs : List LinearConstraint} {e : CutError},
    knapsackGenList s cs = .error e →
    e = .MalformedConstraint ∧
      ∃ c ∈ cs, knapsackShape s c = true ∧ ∃ cap, c.ub = some cap ∧ cap < 0 := by
  intro cs
  induction cs with
  | nil => intro e h; cases h
  | cons c rest ih =>
      intro e h
      unfold knapsackGenList at h
      cases hc : knapsackOnConstraint s c with
      | error e1 =>
          rw [hc] at h
          obtain ⟨he1, hshape, cap, hub, hcap⟩ := knapsackOnConstraint_error hc
          cases h
          exact ⟨he1, c, List.mem_cons_self c rest, hshape, cap, hub, hcap⟩
      | ok l1 =>
          rw [hc] at h
          cases hr : knapsackGenList s rest with
          | error e2 =>
              rw [hr] at h
              obtain ⟨he2, d, hd, hrest⟩ := ih hr
              cases h
              exact ⟨he2, d, List.mem_cons_of_mem c hd, hrest⟩
          | ok l2 => rw [hr] at h; cases h

theorem knapsackGenList_integral {s : Snapshot} :
    ∀ {cs : List LinearConstraint},
    (∀ c ∈ cs, isIntegralOn s c = true) →
    (∀ c ∈ cs, ∀ cap, c.ub = some cap → 0 ≤ cap) →
    knapsackGenList s cs = .ok [] := by
  intro cs
  induction cs with
  | nil => intro _ _; rfl
  | cons c rest ih =>
      intro h1 h2
      unfold knapsackGenList
      rw [knapsackOnConstraint_integral (h1 c (List.mem_cons_self c rest))
          (h2 c (List.mem_cons_self c rest)),
        ih (fun d hd => h1 d (List.mem_cons_of_mem c hd))
          (fun d hd => h2 d (List.mem_cons_of_mem c hd))]
      rfl

theorem guardOkCut_spec {c : LinearConstraint} (h : guardOkCut c = true) :
    (∀ t ∈ c.terms, check t.coeff kSafeRange = true) ∧
    (∀ l, c.lb = some l → check l kSafeRange = true) ∧
    (∀ u, c.ub = some u → check u kSafeRange = true) := by
  unfold guardOkCut at h
  have h2 := by simpa [Bool.and_eq_true, and_assoc] using h
  obtain ⟨ha, hl, hu⟩ := h2
  refine ⟨ha, ?_, ?_⟩
  · intro l heq; rw [heq] at hl; exact hl
  · intro u heq; rw [heq] at hu; exact hu

/-! ## Claim theorems -/

/-- Claim C1 — soundness of every emitted cut: for every cut returned by
`runRound` (under any generator list, so in particular the registered ones) and
for every integer point that satisfies all variable bounds of the Snapshot and
the constraint the cut was derived from, the cut inequality holds at that
point.  Validity is enforced by the exact-integer re-verification of the
Strengthener, independently of how the floating-point derivation produced the
candidate. -/
theorem C1_cut_soundness (gens : List Generator) (s : Snapshot)
    (cs : List LinearConstraint) (limit : Nat) (cut : CutCandidate)
    (hmem : cut ∈ runRound gens s cs limit) (x : Nat → Int)
    (hbounds : ∀ v, s.lb v ≤ x v ∧ x v ≤ s.ub v)
    (hsrc : satisfiesB cut.source x = true) :
    satisfiesB cut.lc x = true :=
  verifyCut_sound (mem_runGens gens limit (mem_runRound hmem)).1 x hbounds hsrc

/-- Witness for C1 at the spec §8 example: the returned cover cut holds at the
feasible integer point `x1 = x3 = 1, x2 = x4 = 0`. -/
theorem C1_cut_soundness_witness :
    satisfiesB exampleCoverCandidate.lc examplePoint = true :=
  C1_cut_soundness defaultGenerators exampleSnapshot [exampleKnapsack] 1
    exampleCoverCandidate (by decide) examplePoint
    (fun v => by
      show (0 : Int) ≤ examplePoint v ∧ examplePoint v ≤ 1
      unfold examplePoint
      constructor
      · split
        · omega
        · split <;> omega
      · split
        · omega
        · split <;> omega)
    (by decide)

/-- Claim C2 — violation correctness: every cut in the sequence returned by
`runRound` has activity, evaluated exactly on the input Snapshot, that exceeds
its stated bound by strictly more than the fixed tolerance (so no cut failing
the test is ever returned). -/
theorem C2_violation_correctness (gens : List Generator) (s : Snapshot)
    (cs : List LinearConstraint) (limit : Nat) (cut : CutCandidate)
    (hmem : cut ∈ runRound gens s cs limit) :
    tolerance.toRat < (violationOf s cut.lc).toRat :=
  (fracLT_iff_toRat tolerance (violationOf s cut.lc)).mp
    (mem_runGens gens limit (mem_runRound hmem)).2.2

/-- Witness for C2 at the spec §8 example. -/
theorem C2_violation_correctness_witness :
    tolerance.toRat < (violationOf exampleSnapshot exampleCoverCandidate.lc).toRat :=
  C2_violation_correctness defaultGenerators exampleSnapshot [exampleKnapsack] 1
    exampleCoverCandidate (by decide)

/-- Claim C3 — determinism of `run_round`: two calls with identical Snapshot,
identical constraint set and identical time budget produce identical output —
the same cuts with the same coefficients in the same order. -/
theorem C3_determinism (s1 s2 : Snapshot) (cs1 cs2 : List LinearConstraint)
    (limit1 limit2 : Nat) (hs : s1 = s2) (hcs : cs1 = cs2)
    (hlim : limit1 = limit2) :
    runRound defaultGenerators s1 cs1 limit1 =
      runRound defaultGenerators s2 cs2 limit2 := by
  rw [hs, hcs, hlim]

/-- Witness for C3 at the spec §8 example. -/
theorem C3_determinism_witness :
    runRound defaultGenerators exampleSnapshot [exampleKnapsack] 1 =
      runRound defaultGenerators exampleSnapshot [exampleKnapsack] 1 :=
  C3_determinism exampleSnapshot exampleSnapshot [exampleKnapsack]
    [exampleKnapsack] 1 1 rfl rfl rfl

/-- Claim C4 — overflow safety: every cut returned by `runRound` has all
coefficients and all finite bounds inside the conservative safe range, and a
generator whose every candidate fails the overflow guard contributes nothing —
the round continues with the remaining generators and no error is surfaced
(`runRound` returns a plain list). -/
theorem C4_overflow_safety :
    (∀ (gens : List Generator) (s : Snapshot) (cs : List LinearConstraint)
        (limit : Nat) (cut : CutCandidate),
      cut ∈ runRound gens s cs limit →
      (∀ t ∈ cut.lc.terms, check t.coeff kSafeRange = true) ∧
      (∀ l, cut.lc.lb = some l → check l kSafeRange = true) ∧
      (∀ u, cut.lc.ub = some u → check u kSafeRange = true)) ∧
    (∀ (g : Generator) (gens : List Generator) (s : Snapshot)
        (cs : List LinearConstraint) (n : Nat) (raw : List CutCandidate),
      g s cs = .ok raw → (∀ r ∈ raw, guardOkCut r.lc = false) →
      runRound (g :: gens) s cs (n + 1) = runRound gens s cs n) := by
  constructor
  · intro gens s cs limit cut hmem
    exact guardOkCut_spec (mem_runGens gens limit (mem_runRound hmem)).2.1
  · intro g gens s cs n raw hg hall
    unfold runRound
    have h : runGens s cs (g :: gens) (n + 1) = runGens s cs gens n := by
      show processGen s cs g ++ runGens s cs gens n = runGens s cs gens n
      rw [processGen_of_guard_fail hg hall]
      rfl
    rw [h]

/-- Witness for C4: the example cover cut has its first coefficient in the safe
range, and prepending a generator whose only candidate overflows leaves the
round output unchanged. -/
theorem C4_overflow_safety_witness :
    check (1 : Int) kSafeRange = true ∧
    runRound (overflowGen :: defaultGenerators) exampleSnapshot
        [exampleKnapsack] 1 =
      runRound defaultGenerators exampleSnapshot [exampleKnapsack] 0 :=
  ⟨(C4_overflow_safety.1 defaultGenerators exampleSnapshot [exampleKnapsack] 1
      exampleCoverCandidate (by decide)).1 (LinearTerm.mk 1 4) (by decide),
   C4_overflow_safety.2 overflowGen defaultGenerators exampleSnapshot
     [exampleKnapsack] 0 _ rfl (by decide)⟩

/-- Claim C5 — time-limit behaviour of `run_round`: the time limit is checked
after each generator completes, so the round only ever consults the first
`limit + 1` generators and returns what they contributed; in particular with a
zero budget only the first generator runs, yielding an empty or partial list
rather than running every generator to completion. -/
theorem C5_time_limit_responsiveness (gens : List Generator) (s : Snapshot)
    (cs : List LinearConstraint) (limit : Nat) :
    runRound gens s cs limit = runRound (gens.take (limit + 1)) s cs limit := by
  unfold runRound
  rw [← runGens_take s cs gens limit]

/-- Claim C6 — the worked knapsack-cover example of spec §8: on the constraint
`3 x1 + 5 x2 + 4 x3 + 6 x4 ≤ 10` with relaxation values `x1 = 1, x2 = 0.8,
x3 = 1, x4 = 0.5`, the generator finds the minimal cover `{x2, x4}` (weights
5 + 6 = 11 > 10) and `run_round` returns the cover cut `x4 + x2 ≤ 1`, whose
activity 1.3 violates the bound 1 by 0.3. -/
theorem C6_knapsack_cover_example :
    findMinimalCover exampleKnapsack.terms 10 =
      some [LinearTerm.mk 6 4, LinearTerm.mk 5 2] ∧
    knapsackCoverGenerator exampleSnapshot [exampleKnapsack] =
      .ok [exampleCoverCandidate] ∧
    runRound defaultGenerators exampleSnapshot [exampleKnapsack] 1 =
      [exampleCoverCandidate] ∧
    exampleCoverCandidate.lc =
      LinearConstraint.mk [LinearTerm.mk 1 4, LinearTerm.mk 1 2] none (some 1) ∧
    (activityQ exampleSnapshot exampleCoverCandidate.lc).toRat = 13 / 10 ∧
    (violationOf exampleSnapshot exampleCoverCandidate.lc).toRat = 3 / 10 := by
  refine ⟨by decide, rfl, by decide, rfl, ?_, ?_⟩
  · have h : activityQ exampleSnapshot exampleCoverCandidate.lc =
        ⟨13, 10, by norm_num⟩ := rfl
    rw [h]
    unfold Frac.toRat
    norm_num
  · have h : violationOf exampleSnapshot exampleCoverCandidate.lc =
        ⟨3, 10, by norm_num⟩ := rfl
    rw [h]
    unfold Frac.toRat
    norm_num

/-- Claim C7 — LinearConstraint construction: construction merges duplicate
variable references by summing their coefficients and drops terms whose
resulting coefficient is zero, so a successfully constructed constraint is
variable-unique with all coefficients nonzero and its term set is exactly the
nonzero merged sums; it fails with `MalformedConstraint` exactly when the
resulting term set is empty and both bounds are infinite. -/
theorem C7_construct_merges_and_rejects (pairs : List (Int × Nat))
    (lb ub : Option Int) :
    (∀ c : LinearConstraint, construct pairs lb ub = .ok c →
      c.lb = lb ∧ c.ub = ub ∧
      c.terms.Pairwise (fun a b => a.var ≠ b.var) ∧
      (∀ t : LinearTerm, t ∈ c.terms ↔
        t.coeff = sumCoeff pairs t.var ∧ t.coeff ≠ 0 ∧
          t.var ∈ pairs.map Prod.snd)) ∧
    (construct pairs lb ub = .error .MalformedConstraint ↔
      mergedTerms pairs = [] ∧ lb = none ∧ ub = none) := by
  constructor
  · intro c hc
    obtain rfl := construct_ok hc
    exact ⟨rfl, rfl, mergedTerms_pairwise_ne pairs,
      fun t => mem_mergedTerms_iff pairs t⟩
  · exact construct_error_iff pairs lb ub

/-- Witness for C7: a duplicated variable is merged away (`2 x1 − 2 x1 + 3 x2`
constructs to the single term `3 x2`), and the empty unbounded input is
rejected. -/
theorem C7_construct_witness :
    (LinearConstraint.mk [LinearTerm.mk 3 2] none (some 5)).terms.Pairwise
        (fun a b => a.var ≠ b.var) ∧
    construct ([] : List (Int × Nat)) none none = .error .MalformedConstraint :=
  ⟨((C7_construct_merges_and_rejects [((2 : Int), (1 : Nat)), (3, 2), (-2, 1)]
        none (some 5)).1
      (LinearConstraint.mk [LinearTerm.mk 3 2] none (some 5)) (by rfl)).2.2.1,
   (C7_construct_merges_and_rejects ([] : List (Int × Nat)) none none).2.mpr
     ⟨rfl, rfl, rfl⟩⟩

/-- Claim C8 — generator no-op versus error: the knapsack-cover generator maps
an empty input, or an input whose relaxation point is integral on every
constraint (with well-formed capacities), to an empty candidate list and never
an error; it fails with `MalformedConstraint` only when some claimed knapsack
constraint has a negative capacity; and a failing generator invocation is fatal
only to that generator — the round goes on with the remaining generators. -/
theorem C8_noop_vs_error :
    (∀ s : Snapshot, knapsackCoverGenerator s [] = .ok []) ∧
    (∀ (s : Snapshot) (cs : List LinearConstraint),
      (∀ c ∈ cs, isIntegralOn s c = true) →
      (∀ c ∈ cs, ∀ cap, c.ub = some cap → 0 ≤ cap) →
      knapsackCoverGenerator s cs = .ok []) ∧
    (∀ (s : Snapshot) (cs : List LinearConstraint) (e : CutError),
      knapsackCoverGenerator s cs = .error e →
      e = .MalformedConstraint ∧
        ∃ c ∈ cs, knapsackShape s c = true ∧
          ∃ cap, c.ub = some cap ∧ cap < 0) ∧
    (∀ (g : Generator) (gens : List Generator) (s : Snapshot)
        (cs : List LinearConstraint) (n : Nat) (e : CutError),
      g s cs = .error e →
      runRound (g :: gens) s cs (n + 1) = runRound gens s cs n) := by
  refine ⟨fun s => rfl,
    fun s cs h1 h2 => knapsackGenList_integral h1 h2,
    fun s cs e h => knapsackGenList_error h, ?_⟩
  intro g gens s cs n e hg
  unfold runRound
  have h : runGens s cs (g :: gens) (n + 1) = runGens s cs gens n := by
    show processGen s cs g ++ runGens s cs gens n = runGens s cs gens n
    rw [processGen_of_error hg]
    rfl
  rw [h]

/-- Witness for C8: empty input and an integral relaxation point are no-ops, a
negative-capacity knapsack is the malformed input behind an error, and the
erroring generator does not abort the round. -/
theorem C8_noop_vs_error_witness :
    knapsackCoverGenerator exampleSnapshot [] = .ok [] ∧
    knapsackCoverGenerator integralSnapshot [exampleKnapsack] = .ok [] ∧
    (∃ c ∈ [badCapConstraint], knapsackShape exampleSnapshot c = true ∧
      ∃ cap, c.ub = some cap ∧ cap < 0) ∧
    runRound (knapsackCoverGenerator :: defaultGenerators) exampleSnapshot
        [badCapConstraint] 1 =
      runRound defaultGenerators exampleSnapshot [badCapConstraint] 0 :=
  ⟨C8_noop_vs_error.1 exampleSnapshot,
   C8_noop_vs_error.2.1 integralSnapshot [exampleKnapsack] (by decide)
     (fun c hc cap hcap => by
       rw [List.mem_singleton] at hc
       subst hc
       have h10 : (10 : Int) = cap := by
         have := hcap
         simp [exampleKnapsack] at this
         exact this
       omega),
   (C8_noop_vs_error.2.2.1 exampleSnapshot [badCapConstraint]
      .MalformedConstraint (by rfl)).2,
   C8_noop_vs_error.2.2.2 knapsackCoverGenerator defaultGenerators
     exampleSnapshot [badCapConstraint] 0 .MalformedConstraint (by rfl)⟩

/-- Claim C9 — canonicalization: for every constraint with nonzero
coefficients, the canonical form has its terms sorted by ascending variable
index, a positive leading coefficient, the same multiset of variables, and the
deduplication signature is exactly this canonical form. -/
theorem C9_canonicalization (c : LinearConstraint)
    (hnz : ∀ t ∈ c.terms, t.coeff ≠ 0) :
    List.Sorted termLE (canonicalize c).terms ∧
    0 < leadCoeff (canonicalize c).terms ∧
    List.Perm ((canonicalize c).terms.map LinearTerm.var)
      (c.terms.map LinearTerm.var) ∧
    signature c = canonicalize c :=
  ⟨canonicalize_sorted c, canonicalize_leadCoeff_pos hnz,
    canonicalize_vars_perm c, rfl⟩

/-- Witness for C9 on a concrete two-term constraint with a negative
coefficient. -/
theorem C9_canonicalization_witness :
    List.Sorted termLE (canonicalize canonProbe).terms ∧
    0 < leadCoeff (canonicalize canonProbe).terms ∧
    List.Perm ((canonicalize canonProbe).terms.map LinearTerm.var)
      (canonProbe.terms.map LinearTerm.var) ∧
    signature canonProbe = canonicalize canonProbe :=
  C9_canonicalization canonProbe (by decide)

/-- Claim C10 — the sole source file declares nothing: the namespace
`operations_research::sat` of `src/ortools/sat/cuts.cc` is empty, so the
translation unit is observationally equivalent to an empty module and none of
the operations the spec names is implemented in the visible source. -/
theorem C10_empty_translation_unit :
    cutsCcSatNamespaceDecls = emptyModuleDecls ∧
    (∀ sym : String, sym ∉ cutsCcSatNamespaceDecls) :=
  ⟨rfl, fun sym h => (List.not_mem_nil sym) h⟩

end Cuts
